import Mathlib

/-!
Verification of the retrieval core of the Vervathon25 RAG backend.

The Python sources embedded here are:
- `chunk_text` (src/ai-backend/rag_main.py:231-241 and src/api/index.py:198-208,
  textually identical),
- `save_document_to_db` (rag_main.py:252-278, index.py:220-245),
- `search_similar_chunks` (rag_main.py:280-322, index.py:247-288),
- the raw cosine similarity of `_get_relevant_context`
  (src/ai-backend/document_chat_model.py:176-182),
- the `embedding.tobytes()` / `np.frombuffer(blob, dtype=np.float32)`
  serialization pair (rag_main.py:264-271 and 300-306).

Python strings are modelled as `List Char`; Python floats as `ℚ` (see the
comment at `signedSq` for how square-root-based cosine values are represented
exactly); numpy float32 values as their 32-bit patterns (`Nat < 2^32`).
-/

/-- Python strings are modelled as lists of characters. -/
abbrev PyStr := List Char

/-- One step of Python `str.split()` (no argument): accumulate the current
word (in reverse) and emit maximal runs of non-whitespace characters. -/
def pySplitGo : List Char → List Char → List PyStr
  | [], acc => if acc.isEmpty then [] else [acc.reverse]
  | c :: rest, acc =>
    if c.isWhitespace then
      if acc.isEmpty then pySplitGo rest [] else acc.reverse :: pySplitGo rest []
    else pySplitGo rest (c :: acc)

/-- Python `text.split()`: split on runs of whitespace, dropping empty pieces. -/
def pySplit (s : PyStr) : List PyStr := pySplitGo s []

/-- Python `' '.join(words)`: the words separated by single spaces. -/
def pyJoin : List PyStr → PyStr
  | [] => []
  | [w] => w
  | w :: v :: ws => w ++ ' ' :: pyJoin (v :: ws)

/-- Python `s.strip()`: drop leading and trailing whitespace. -/
def pyStrip (s : PyStr) : PyStr :=
  ((s.dropWhile Char.isWhitespace).reverse.dropWhile Char.isWhitespace).reverse

/-- Python `range(0, stop, step)` for a positive `step`: the multiples of
`step` below `stop`. -/
def chunkStarts (stop step : Nat) : List Nat :=
  (List.range ((stop + step - 1) / step)).map (· * step)

/-- The word windows `words[i : i + chunkSize]` taken by `chunk_text`,
one per loop iteration. -/
def windows (words : List PyStr) (chunkSize step : Nat) : List (List PyStr) :=
  (chunkStarts words.length step).map (fun i => (words.drop i).take chunkSize)

/-- `chunk_text` (rag_main.py:231-241, index.py:198-208):

    words = text.split()
    chunks = []
    for i in range(0, len(words), chunk_size - overlap):
        chunk = ' '.join(words[i:i + chunk_size])
        if chunk.strip():
            chunks.append(chunk.strip())
    return chunks

`chunk_size - overlap` is Python integer subtraction, so it can be zero
(`range` raises `ValueError`, modelled as `none`) or negative
(`range(0, n, negative)` is empty for `n ≥ 0`, so the loop body never runs
and `[]` is returned). -/
def chunk_text (text : PyStr) (chunk_size overlap : Nat) : Option (List PyStr) :=
  if chunk_size = overlap then none
  else if chunk_size < overlap then some []
  else some
    (((windows (pySplit text) chunk_size (chunk_size - overlap)).map
        (fun w => pyStrip (pyJoin w))).filter (fun c => c ≠ []))

/-- The `k`-th word window of `chunk_text`, with `[]` past the end. -/
def nthWindow (words : List PyStr) (chunkSize step k : Nat) : List PyStr :=
  (windows words chunkSize step).getD k []

/-- A word as produced by `str.split()`: non-empty and free of whitespace. -/
def goodWord (w : PyStr) : Prop := w ≠ [] ∧ ∀ c ∈ w, c.isWhitespace = false

theorem pySplitGo_goodWords (s : List Char) :
    ∀ acc : List Char, (∀ c ∈ acc, c.isWhitespace = false) →
    ∀ w ∈ pySplitGo s acc, goodWord w := by
  induction s with
  | nil =>
    intro acc hacc w hw
    by_cases h : acc.isEmpty
    · simp [pySplitGo, h] at hw
    · simp [pySplitGo, h] at hw
      subst hw
      refine ⟨?_, ?_⟩
      · simp only [ne_eq, List.reverse_eq_nil_iff]
        exact fun he => h (by simp [he])
      · intro c hc
        exact hacc c (List.mem_reverse.mp hc)
  | cons c rest ih =>
    intro acc hacc w hw
    by_cases hc : c.isWhitespace
    · by_cases ha : acc.isEmpty
      · simp [pySplitGo, hc, ha] at hw
        exact ih [] (by simp) w hw
      · simp [pySplitGo, hc, ha] at hw
        rcases hw with hw | hw
        · subst hw
          refine ⟨?_, ?_⟩
          · simp only [ne_eq, List.reverse_eq_nil_iff]
            exact fun he => ha (by simp [he])
          · intro d hd
            exact hacc d (List.mem_reverse.mp hd)
        · exact ih [] (by simp) w hw
    · simp only [pySplitGo, hc, if_false] at hw
      refine ih (c :: acc) ?_ w hw
      intro d hd
      rcases List.mem_cons.mp hd with h | h
      · subst h; simpa using hc
      · exact hacc d h

theorem pySplit_goodWords (s : PyStr) : ∀ w ∈ pySplit s, goodWord w :=
  pySplitGo_goodWords s [] (by simp)

theorem pyJoin_head (ws : List PyStr) (hws : ∀ w ∈ ws, goodWord w) (hne : ws ≠ []) :
    ∃ c t, pyJoin ws = c :: t ∧ c.isWhitespace = false := by
  induction ws with
  | nil => exact absurd rfl hne
  | cons w vs ih =>
    obtain ⟨hw1, hw2⟩ := hws w (by simp)
    obtain ⟨c, t, rfl⟩ := List.exists_cons_of_ne_nil hw1
    cases vs with
    | nil => exact ⟨c, t, rfl, hw2 c (by simp)⟩
    | cons v vs => exact ⟨c, t ++ ' ' :: pyJoin (v :: vs), rfl, hw2 c (by simp)⟩

theorem pyJoin_reverse_head (ws : List PyStr) (hws : ∀ w ∈ ws, goodWord w)
    (hne : ws ≠ []) :
    ∃ c t, (pyJoin ws).reverse = c :: t ∧ c.isWhitespace = false := by
  induction ws with
  | nil => exact absurd rfl hne
  | cons w vs ih =>
    cases vs with
    | nil =>
      obtain ⟨hw1, hw2⟩ := hws w (by simp)
      have hrev : w.reverse ≠ [] := by simpa using hw1
      obtain ⟨c, t, hct⟩ := List.exists_cons_of_ne_nil hrev
      refine ⟨c, t, by simpa [pyJoin] using hct, ?_⟩
      have : c ∈ w.reverse := by simp [hct]
      exact hw2 c (List.mem_reverse.mp this)
    | cons v vs =>
      obtain ⟨c, t, hct, hcw⟩ := ih (fun u hu => hws u (List.mem_cons_of_mem w hu))
        (by simp)
      refine ⟨c, t ++ ' ' :: w.reverse, ?_, hcw⟩
      show (w ++ ' ' :: pyJoin (v :: vs)).reverse = c :: (t ++ ' ' :: w.reverse)
      rw [List.reverse_append, List.reverse_cons, hct]
      simp

theorem pyStrip_pyJoin (ws : List PyStr) (hws : ∀ w ∈ ws, goodWord w)
    (hne : ws ≠ []) : pyStrip (pyJoin ws) = pyJoin ws ∧ pyJoin ws ≠ [] := by
  obtain ⟨c, t, hct, hcw⟩ := pyJoin_head ws hws hne
  obtain ⟨c2, t2, hct2, hcw2⟩ := pyJoin_reverse_head ws hws hne
  constructor
  · unfold pyStrip
    rw [hct, List.dropWhile_cons, hcw]
    simp only [Bool.false_eq_true, if_false, ← hct]
    rw [hct2, List.dropWhile_cons, hcw2]
    simp only [Bool.false_eq_true, if_false, ← hct2, List.reverse_reverse]
  · simp [hct]

/-- Text consisting of 451 whitespace-separated words. -/
def text451 : PyStr := pyJoin (List.replicate 451 (['w']))

/-- Sample non-empty text with a small number of words. -/
def textHiThere : PyStr := ['h', 'i', ' ', 't', 'h', 'e', 'r', 'e']

/-- Text whose words are `a`, `b`, `c`. -/
def textABC : PyStr := ['a', ' ', 'b', ' ', 'c']

/-- C1, counterexample: the claim says that with `chunkSize = 500` and
`overlap = 50`, any non-empty text of at most 500 words yields exactly one
chunk. But a 451-word text has word count at most 500 and yields two chunks:
`range(0, 451, 450) = [0, 450]`, so a second (overlapping) window starting at
word 450 is emitted. -/
theorem c1_counterexample :
    text451 ≠ [] ∧ (pySplit text451).length ≤ 500 ∧
      ((chunk_text text451 500 50).getD []).length = 2 := by
  set_option maxRecDepth 100000 in decide

/-- C1, amended: with `chunkSize = 500` and `overlap = 50`, any text of at
most `chunkSize - overlap = 450` words yields exactly one chunk, the whole
text with its words rejoined by single spaces; a text with no words (in
particular the empty text) yields the empty sequence. -/
theorem c1_chunk_text_single_chunk (text : PyStr)
    (h : (pySplit text).length ≤ 450) :
    chunk_text text 500 50 =
      some (if pySplit text = [] then [] else [pyJoin (pySplit text)]) := by
  unfold chunk_text
  norm_num
  by_cases hw : pySplit text = []
  · simp [hw, windows, chunkStarts]
  · have hlen : 0 < (pySplit text).length := List.length_pos.mpr hw
    have hwindows : windows (pySplit text) 500 450 = [pySplit text] := by
      unfold windows chunkStarts
      have hdiv : ((pySplit text).length + 450 - 1) / 450 = 1 := by omega
      rw [hdiv]
      simp [List.range_succ,
        List.take_of_length_le (by omega : (pySplit text).length ≤ 500)]
    rw [hwindows]
    obtain ⟨hstrip, hne⟩ := pyStrip_pyJoin (pySplit text) (pySplit_goodWords text) hw
    simp [hw, hstrip, hne]

/-- Witness for `c1_chunk_text_single_chunk` at a concrete two-word text. -/
theorem c1_chunk_text_single_chunk_witness :
    (pySplit textHiThere).length ≤ 450 ∧
      chunk_text textHiThere 500 50 =
        some (if pySplit textHiThere = [] then [] else [pyJoin (pySplit textHiThere)]) :=
  ⟨by decide, c1_chunk_text_single_chunk textHiThere (by decide)⟩

/-- C2 (code divergence): on `overlap > chunkSize` the source `chunk_text`
silently returns the empty chunk list (the Python `range(0, n, negative)` is
empty so the loop never runs), and on `overlap = chunkSize` it raises an
unguarded `ValueError` from `range(..., 0)` (modelled as `none`). It never
raises the `InvalidConfiguration` error the spec mandates, and it does
return a degenerate (empty) result for `overlap > chunkSize`. -/
theorem c2_no_invalid_configuration_guard :
    chunk_text textABC 2 3 = some [] ∧ chunk_text textABC 2 2 = none := by
  decide

theorem chunkStarts_length (n s : Nat) :
    (chunkStarts n s).length = (n + s - 1) / s := by
  simp [chunkStarts]

theorem nthWindow_eq (words : List PyStr) (cs s k : Nat)
    (hk : k < (chunkStarts words.length s).length) :
    nthWindow words cs s k = (words.drop (k * s)).take cs := by
  unfold nthWindow windows
  rw [List.getD_eq_getElem _ _ (by simpa using hk)]
  simp [chunkStarts]

theorem chunkStarts_mul_lt (n s k : Nat) (hs : 0 < s)
    (hk : k < (chunkStarts n s).length) : k * s < n := by
  rw [chunkStarts_length] at hk
  have h1 : (k + 1) * s ≤ n + s - 1 := by
    rw [← Nat.le_div_iff_mul_le hs]
    omega
  rw [Nat.succ_mul] at h1
  omega

theorem mul_mem_chunkStarts (n s k : Nat) (hs : 0 < s) (h : k * s < n) :
    k * s ∈ chunkStarts n s := by
  unfold chunkStarts
  refine List.mem_map.mpr ⟨k, List.mem_range.mpr ?_, rfl⟩
  have h1 : (k + 1) * s ≤ n + s - 1 := by rw [Nat.succ_mul]; omega
  have := (Nat.le_div_iff_mul_le hs).mpr h1
  omega

theorem chunkStarts_mem_lt (n s : Nat) (hs : 0 < s) :
    ∀ i ∈ chunkStarts n s, i < n := by
  intro i hi
  obtain ⟨k, hk, rfl⟩ := List.mem_map.mp hi
  exact chunkStarts_mul_lt n s k hs (by simpa [chunkStarts] using hk)

theorem windows_goodWords (text : PyStr) (cs s : Nat) (hs : 0 < s) (hcs : 0 < cs) :
    ∀ w ∈ windows (pySplit text) cs s, w ≠ [] ∧ ∀ u ∈ w, goodWord u := by
  intro w hw
  obtain ⟨i, hi, rfl⟩ := List.mem_map.mp hw
  have hin := chunkStarts_mem_lt (pySplit text).length s hs i hi
  constructor
  · rw [ne_eq, List.take_eq_nil_iff]
    push_neg
    refine ⟨by omega, ?_⟩
    rw [ne_eq, List.drop_eq_nil_iff]
    omega
  · intro u hu
    exact pySplit_goodWords text u
      (List.mem_of_mem_drop (List.mem_of_mem_take hu))

theorem get_mem_window {α : Type} (l : List α) (a cs j : Nat) (hj : j < l.length)
    (h1 : a ≤ j) (h2 : j < a + cs) :
    l.get ⟨j, hj⟩ ∈ (l.drop a).take cs := by
  have hb : j - a < ((l.drop a).take cs).length := by
    simp only [List.length_take, List.length_drop]
    omega
  have he : ((l.drop a).take cs).get ⟨j - a, hb⟩ = l.get ⟨j, hj⟩ := by
    simp only [List.get_eq_getElem, List.getElem_take, List.getElem_drop]
    congr 1
    omega
  rw [← he]
  exact List.get_mem _ _ _

/-- C5, counterexample: with `chunkSize = 5`, `overlap = 4` (a valid pair,
`overlap < chunkSize`) the three-word text `a b c` yields three chunks
`["a b c", "b c", "c"]`. The shared region between chunk 0 and chunk 1 is
chunk 0's word window minus its first `chunkSize - overlap = 1` word, which
is all of chunk 1's window: only 2 shared words, not `overlap = 4`, although
chunk 1 is not the final chunk. -/
theorem c5_counterexample :
    ((chunk_text textABC 5 4).getD []).length = 3 ∧
    (nthWindow (pySplit textABC) 5 1 0).drop 1 = nthWindow (pySplit textABC) 5 1 1 ∧
    ((nthWindow (pySplit textABC) 5 1 0).drop 1).length = 2 := by
  decide

/-- C5, amended: for every text and `overlap < chunkSize`, the chunker's
output is the word windows starting at the multiples of
`step = chunkSize - overlap` (each joined by single spaces), every word
position of the split text lies in some window (no word dropped), and each
pair of consecutive windows shares exactly `overlap` word positions whenever
the earlier window is full (`start + chunkSize ≤ wordCount`); a pair whose
earlier window is truncated by the end of the text shares fewer — with the
default parameters (`2·overlap ≤ chunkSize`) that can only be the final
pair, but in general (e.g. `chunkSize = 5`, `overlap = 4`) interior pairs
can share fewer as well. -/
theorem c5_chunk_coverage_overlap (text : PyStr) (cs ov : Nat) (hov : ov < cs) :
    chunk_text text cs ov = some ((windows (pySplit text) cs (cs - ov)).map pyJoin) ∧
    (∀ j (hj : j < (pySplit text).length),
      ∃ w ∈ windows (pySplit text) cs (cs - ov), (pySplit text).get ⟨j, hj⟩ ∈ w) ∧
    (∀ k, k + 1 < (chunkStarts (pySplit text).length (cs - ov)).length →
      (nthWindow (pySplit text) cs (cs - ov) k).drop (cs - ov) =
        (nthWindow (pySplit text) cs (cs - ov) (k + 1)).take ov ∧
      (k * (cs - ov) + cs ≤ (pySplit text).length →
        ((nthWindow (pySplit text) cs (cs - ov) k).drop (cs - ov)).length = ov) ∧
      ((pySplit text).length < k * (cs - ov) + cs →
        ((nthWindow (pySplit text) cs (cs - ov) k).drop (cs - ov)).length < ov)) := by
  have hs : 0 < cs - ov := by omega
  have hcs : 0 < cs := by omega
  refine ⟨?_, ?_, ?_⟩
  · unfold chunk_text
    rw [if_neg (by omega : ¬ (cs = ov)), if_neg (by omega : ¬ (cs < ov))]
    congr 1
    have hmap : (windows (pySplit text) cs (cs - ov)).map (fun w => pyStrip (pyJoin w)) =
        (windows (pySplit text) cs (cs - ov)).map pyJoin := by
      apply List.map_congr_left
      intro w hw
      obtain ⟨hne, hgood⟩ := windows_goodWords text cs (cs - ov) hs hcs w hw
      exact (pyStrip_pyJoin w hgood hne).1
    rw [hmap]
    apply List.filter_eq_self.mpr
    intro c hc
    obtain ⟨w, hw, rfl⟩ := List.mem_map.mp hc
    obtain ⟨hne, hgood⟩ := windows_goodWords text cs (cs - ov) hs hcs w hw
    simpa using (pyStrip_pyJoin w hgood hne).2
  · intro j hj
    refine ⟨((pySplit text).drop (j / (cs - ov) * (cs - ov))).take cs, ?_, ?_⟩
    · refine List.mem_map.mpr ⟨j / (cs - ov) * (cs - ov), ?_, rfl⟩
      apply mul_mem_chunkStarts _ _ _ hs
      have := Nat.div_mul_le_self j (cs - ov)
      omega
    · have h1 := Nat.div_add_mod j (cs - ov)
      have h2 := Nat.mod_lt j hs
      have h3 : j / (cs - ov) * (cs - ov) = (cs - ov) * (j / (cs - ov)) :=
        Nat.mul_comm _ _
      exact get_mem_window _ _ _ _ hj (by omega) (by omega)
  · intro k hk
    have hk0 : k < (chunkStarts (pySplit text).length (cs - ov)).length := by omega
    rw [nthWindow_eq _ _ _ _ hk0, nthWindow_eq _ _ _ _ hk]
    have hsucc : (k + 1) * (cs - ov) = k * (cs - ov) + (cs - ov) := Nat.succ_mul _ _
    have hlt := chunkStarts_mul_lt (pySplit text).length (cs - ov) (k + 1) hs hk
    rw [hsucc] at hlt
    refine ⟨?_, ?_, ?_⟩
    · rw [List.drop_take, List.drop_drop, List.take_take]
      rw [(by omega : cs - (cs - ov) = ov), (by omega : min ov cs = ov), hsucc]
    · intro hfull
      rw [List.drop_take, List.drop_drop]
      simp only [List.length_take, List.length_drop]
      omega
    · intro hpart
      rw [List.drop_take, List.drop_drop]
      simp only [List.length_take, List.length_drop]
      omega

/-- Witness for `c5_chunk_coverage_overlap` at `text = "a b c"`,
`chunkSize = 2`, `overlap = 1`. -/
theorem c5_chunk_coverage_overlap_witness :
    1 < 2 ∧
    (chunk_text textABC 2 1 = some ((windows (pySplit textABC) 2 (2 - 1)).map pyJoin) ∧
    (∀ j (hj : j < (pySplit textABC).length),
      ∃ w ∈ windows (pySplit textABC) 2 (2 - 1), (pySplit textABC).get ⟨j, hj⟩ ∈ w) ∧
    (∀ k, k + 1 < (chunkStarts (pySplit textABC).length (2 - 1)).length →
      (nthWindow (pySplit textABC) 2 (2 - 1) k).drop (2 - 1) =
        (nthWindow (pySplit textABC) 2 (2 - 1) (k + 1)).take 1 ∧
      (k * (2 - 1) + 2 ≤ (pySplit textABC).length →
        ((nthWindow (pySplit textABC) 2 (2 - 1) k).drop (2 - 1)).length = 1) ∧
      ((pySplit textABC).length < k * (2 - 1) + 2 →
        ((nthWindow (pySplit textABC) 2 (2 - 1) k).drop (2 - 1)).length < 1))) :=
  ⟨by decide, c5_chunk_coverage_overlap textABC 2 1 (by decide)⟩

/-- One row of the `document_chunks` table, as inserted by
`save_document_to_db` (rag_main.py:265-271, index.py:232-238). The embedding
is modelled post-serialization-roundtrip as the vector of rational values it
denotes (the byte roundtrip itself is modelled by `tobytesF32` and
`frombufferF32` below and proved exact). -/
structure DBChunk where
  documentId : PyStr
  chunkIndex : Nat
  content : PyStr
  pageNumber : Int
  embedding : List ℚ
  chunkSize : Nat
deriving DecidableEq

/-- One row of the `documents` table together with its chunk rows (the
foreign-key relation `chunks.documentId = id` realized as containment). -/
structure SavedDoc where
  id : PyStr
  filename : PyStr
  totalChunks : Nat
  fileSize : Int
  fileType : PyStr
  chunks : List DBChunk
deriving DecidableEq

/-- Python `zip(a, b, c)`: truncates to the shortest of the three inputs. -/
def zip3 {α β γ : Type} (as : List α) (bs : List β) (cs : List γ) :
    List (α × β × γ) :=
  as.zip (bs.zip cs)

/-- `save_document_to_db` (rag_main.py:252-278, index.py:220-245):
inserts the document row with `total_chunks = len(chunks)`, then one chunk
row per element of `enumerate(zip(chunks, page_numbers, embeddings))`, with
`chunk_index = i` and `chunk_size = len(chunk)`. -/
def save_document_to_db (document_id filename : PyStr) (file_size : Int)
    (file_type : PyStr) (chunks : List PyStr) (page_numbers : List Int)
    (embeddings : List (List ℚ)) : SavedDoc :=
  { id := document_id
    filename := filename
    totalChunks := chunks.length
    fileSize := file_size
    fileType := file_type
    chunks := (zip3 chunks page_numbers embeddings).enum.map
      (fun p =>
        { documentId := document_id
          chunkIndex := p.1
          content := p.2.1
          pageNumber := p.2.2.1
          embedding := p.2.2.2
          chunkSize := p.2.1.length }) }

/-- One row of the search scan: the columns of
`SELECT dc.content, dc.page_number, dc.embedding, d.filename, dc.document_id`
(plus the chunk index, carried for specification purposes only — the search
code never reads it). -/
structure ScanRow where
  content : PyStr
  pageNumber : Int
  embedding : List ℚ
  filename : PyStr
  documentId : PyStr
  chunkIndex : Nat
deriving DecidableEq

/-- The full-corpus scan of `search_similar_chunks`. The SQL query has no
ORDER BY; SQLite returns the rows of `document_chunks` in rowid (insertion)
order, i.e. document upload order and, within one document, insertion order
of its chunk rows. -/
def scanAllChunks (docs : List SavedDoc) : List ScanRow :=
  docs.flatMap (fun d => d.chunks.map (fun c =>
    { content := c.content
      pageNumber := c.pageNumber
      embedding := c.embedding
      filename := d.filename
      documentId := c.documentId
      chunkIndex := c.chunkIndex }))

/-- Python-level exception, caught by the broad `except Exception` handlers. -/
inductive PyError where
  | valueError
deriving DecidableEq

/-- Dot product of two vectors (`np.dot`; also the numerator of
`sklearn cosine_similarity`). Like numpy's pairwise product it pairs
componentwise up to the shorter operand (both sources only call it after the
dimension check). -/
def dotQ (xs ys : List ℚ) : ℚ := (List.zipWith (fun a b => a * b) xs ys).sum

/-- Squared Euclidean norm: `np.linalg.norm(v) ** 2`. -/
def normSq (xs : List ℚ) : ℚ := dotQ xs xs

/-- The strictly monotone bijection `x ↦ sign(x) · x²` of the reals. The
source computes cosine similarities `dot / (‖q‖ · ‖c‖)` with real square
roots, which have no exact rational representative; applying this bijection
to the cosine value gives `sign(dot) · dot² / (‖q‖² · ‖c‖²)`, which is
rational. All similarity values in this development are represented through
this bijection: order comparisons and zeroness of the represented values are
preserved exactly, so ranking, tie-breaking and the zero-similarity claims
are unaffected by the encoding. -/
def signedSq (x : ℚ) : ℚ := if x < 0 then -(x * x) else x * x

/-- Squared norm as used by sklearn's row normalization, which replaces a
zero norm by 1 before dividing (`normalize`: `norms[norms == 0.0] = 1.0`). -/
def fixedNormSq (v : List ℚ) : ℚ := if normSq v = 0 then 1 else normSq v

/-- `cosine_similarity(query_embedding, embedding)[0][0]` from sklearn, as
called by `search_similar_chunks` (rag_main.py:305-306, index.py:273-275):
raises `ValueError` when the two vectors have different lengths
(`Incompatible dimension for X and Y matrices`), otherwise the value
`dot / (‖q‖ · ‖c‖)` with zero norms replaced by 1 — represented through the
`signedSq` bijection. -/
def sklearnCosine (q c : List ℚ) : Except PyError ℚ :=
  if q.length ≠ c.length then Except.error PyError.valueError
  else Except.ok (signedSq (dotQ q c) / (fixedNormSq q * fixedNormSq c))

/-- The raw cosine similarity of `_get_relevant_context`
(document_chat_model.py:177-180):
`np.dot(q, c) / (np.linalg.norm(q) * np.linalg.norm(c))` with no zero-norm
guard. `none` models a float that is not a number: numpy raises on a shape
mismatch, and division by a zero norm product yields NaN (or infinity), not
a rational value. The represented value is again passed through `signedSq`. -/
def rawCosineSim (q c : List ℚ) : Option ℚ :=
  if q.length ≠ c.length then none
  else if normSq q * normSq c = 0 then none
  else some (signedSq (dotQ q c) / (normSq q * normSq c))

/-- One entry of the `similarities` list built by `search_similar_chunks`. -/
structure SearchHit where
  content : PyStr
  pageNumber : Int
  filename : PyStr
  documentId : PyStr
  similarity : ℚ
deriving DecidableEq

/-- One loop iteration of `search_similar_chunks`: decode the stored
embedding and compute its cosine similarity to the query. -/
def hitOf (q : List ℚ) (r : ScanRow) : Except PyError SearchHit :=
  (sklearnCosine q r.embedding).map (fun s =>
    { content := r.content
      pageNumber := r.pageNumber
      filename := r.filename
      documentId := r.documentId
      similarity := s })

/-- The whole similarity loop: one entry per row, aborting at the first
raised exception. -/
def computeHits (q : List ℚ) : List ScanRow → Except PyError (List SearchHit)
  | [] => Except.ok []
  | r :: rs =>
    match hitOf q r with
    | Except.error e => Except.error e
    | Except.ok h =>
      match computeHits q rs with
      | Except.error e => Except.error e
      | Except.ok t => Except.ok (h :: t)

/-- Comparator realizing `sort(key=lambda x: x['similarity'], reverse=True)`:
descending by similarity, stable on ties. -/
def hitLE (a b : SearchHit) : Bool := b.similarity ≤ a.similarity

/-- `search_similar_chunks` (rag_main.py:280-322, index.py:247-288): return
`[]` when the corpus is empty; compute one similarity entry per scanned row;
sort descending by similarity (Python's stable sort) and return the first
`top_k`. The enclosing `try/except Exception` turns any raised exception
(in particular sklearn's dimension-mismatch `ValueError`) into a silent
empty result. -/
def search_similar_chunks (q : List ℚ) (rows : List ScanRow) (top_k : Nat) :
    List SearchHit :=
  if rows.isEmpty then []
  else
    match computeHits q rows with
    | Except.error _ => []
    | Except.ok sims => (sims.mergeSort hitLE).take top_k

/-- The similarity entries in scan order (the `similarities` list before the
sort), with the exception case mapped to the empty list. -/
def orderedHits (q : List ℚ) (rows : List ScanRow) : List SearchHit :=
  match computeHits q rows with
  | Except.error _ => []
  | Except.ok sims => sims

/-- `embedding.tobytes()` for one float32 element: its bit pattern in the
four native little-endian bytes. -/
def f32ToBytes (x : Nat) : List Nat :=
  [x % 256, x / 256 % 256, x / 65536 % 256, x / 16777216 % 256]

/-- `embedding.tobytes()` (rag_main.py:264): the concatenated four-byte
patterns of the float32 elements. -/
def tobytesF32 (v : List Nat) : List Nat := v.flatMap f32ToBytes

/-- `np.frombuffer(blob, dtype=np.float32)` (rag_main.py:303): reassemble
consecutive groups of four bytes into float32 bit patterns. -/
def frombufferF32 : List Nat → List Nat
  | b0 :: b1 :: b2 :: b3 :: rest =>
      (b0 + 256 * b1 + 65536 * b2 + 16777216 * b3) :: frombufferF32 rest
  | _ => []

instance {ε α : Type} [DecidableEq ε] [DecidableEq α] : DecidableEq (Except ε α)
  | Except.error a, Except.error b =>
    if h : a = b then isTrue (by rw [h])
    else isFalse (by intro he; cases he; exact h rfl)
  | Except.error _, Except.ok _ => isFalse (by intro he; cases he)
  | Except.ok _, Except.error _ => isFalse (by intro he; cases he)
  | Except.ok a, Except.ok b =>
    if h : a = b then isTrue (by rw [h])
    else isFalse (by intro he; cases he; exact h rfl)

/-- The hit built for a row on the non-exception path. -/
def okHit (q : List ℚ) (r : ScanRow) : SearchHit :=
  { content := r.content
    pageNumber := r.pageNumber
    filename := r.filename
    documentId := r.documentId
    similarity := signedSq (dotQ q r.embedding) / (fixedNormSq q * fixedNormSq r.embedding) }

theorem hitOf_ok (q : List ℚ) (r : ScanRow) (h : r.embedding.length = q.length) :
    hitOf q r = Except.ok (okHit q r) := by
  simp [hitOf, sklearnCosine, h, okHit, Except.map]

theorem computeHits_ok (q : List ℚ) (rows : List ScanRow)
    (h : ∀ r ∈ rows, r.embedding.length = q.length) :
    computeHits q rows = Except.ok (rows.map (okHit q)) := by
  induction rows with
  | nil => simp [computeHits]
  | cons r rs ih =>
    have h1 := hitOf_ok q r (h r (by simp))
    have h2 : computeHits q rs = Except.ok (rs.map (okHit q)) :=
      ih (fun x hx => h x (by simp [hx]))
    simp [computeHits, h1, h2]

theorem normSq_cons (x : ℚ) (xs : List ℚ) :
    normSq (x :: xs) = x * x + normSq xs := by
  simp [normSq, dotQ]

theorem normSq_nonneg (v : List ℚ) : 0 ≤ normSq v := by
  induction v with
  | nil => simp [normSq, dotQ]
  | cons x xs ih =>
    rw [normSq_cons]
    have := mul_self_nonneg x
    linarith

theorem eq_zero_of_normSq_eq_zero (v : List ℚ) (h : normSq v = 0) :
    ∀ x ∈ v, x = 0 := by
  induction v with
  | nil => simp
  | cons x xs ih =>
    rw [normSq_cons] at h
    have h1 := mul_self_nonneg x
    have h2 := normSq_nonneg xs
    have hx : x * x = 0 := by linarith
    have hxs : normSq xs = 0 := by linarith
    intro y hy
    rcases List.mem_cons.mp hy with hy | hy
    · subst hy; exact mul_self_eq_zero.mp hx
    · exact ih hxs y hy

theorem dotQ_zero_right : ∀ (q c : List ℚ), (∀ x ∈ c, x = 0) → dotQ q c = 0
  | [], _, _ => by simp [dotQ]
  | _ :: _, [], _ => by simp [dotQ]
  | y :: qs, x :: cs, h => by
    have hx : x = 0 := h x (by simp)
    have hrec := dotQ_zero_right qs cs (fun z hz => h z (by simp [hz]))
    simp only [dotQ, List.zipWith_cons_cons, List.sum_cons] at hrec ⊢
    rw [hx, hrec]
    ring

theorem dotQ_zero_left : ∀ (q c : List ℚ), (∀ x ∈ q, x = 0) → dotQ q c = 0
  | [], _, _ => by simp [dotQ]
  | _ :: _, [], _ => by simp [dotQ]
  | y :: qs, x :: cs, h => by
    have hy : y = 0 := h y (by simp)
    have hrec := dotQ_zero_left qs cs (fun z hz => h z (by simp [hz]))
    simp only [dotQ, List.zipWith_cons_cons, List.sum_cons] at hrec ⊢
    rw [hy, hrec]
    ring

/-- Scan row whose stored embedding has dimension 2. -/
def rowDim2 : ScanRow :=
  { content := ['x'], pageNumber := 1, embedding := [1, 0], filename := ['f'],
    documentId := ['d'], chunkIndex := 0 }

/-- C3 (code divergence): with a stored chunk embedding of length 2 and a
query embedding of length 3, the similarity loop raises sklearn's
dimension-mismatch `ValueError` — and the enclosing broad
`except Exception: return []` swallows it, so `search_similar_chunks`
silently returns the empty result list instead of failing with a clear
error. -/
theorem c3_dimension_mismatch_swallowed :
    computeHits [1, 0, 0] [rowDim2] = Except.error PyError.valueError ∧
    search_similar_chunks [1, 0, 0] [rowDim2] 5 = [] := by
  decide

/-- C4, counterexample: the raw cosine similarity of
`_get_relevant_context` (document_chat_model.py:177-180) divides by the
product of the norms with no zero-norm guard; for the zero-norm stored
embedding `[0]` against query `[1]` the division `0.0 / 0.0` is NaN — an
undefined value, not the similarity 0 the claim requires. -/
theorem c4_counterexample :
    rawCosineSim [1] [0] = none ∧ rawCosineSim [1] [0] ≠ some 0 := by
  have h : normSq [(0 : ℚ)] = 0 := by simp [normSq, dotQ]
  refine ⟨?_, ?_⟩ <;> simp [rawCosineSim, h]

/-- C4, amended: in the sklearn-based search path (rag_main.py /
api/index.py), a stored chunk whose embedding has zero norm (and likewise a
zero-norm query embedding) receives similarity exactly 0: sklearn's
`normalize` replaces the zero norm by 1, the dot product against a zero
vector is 0, no exception is raised and the chunk is not skipped — the
similarity loop still yields one hit per scanned row. In the raw-numpy
variant of `_get_relevant_context` (document_chat_model.py) the same input
instead produces an undefined float (NaN), see the counterexample. -/
theorem c4_sklearn_zero_norm (q : List ℚ) (rows : List ScanRow) (r : ScanRow)
    (hdim : ∀ x ∈ rows, x.embedding.length = q.length) (hr : r ∈ rows)
    (hzero : normSq r.embedding = 0 ∨ normSq q = 0) :
    sklearnCosine q r.embedding = Except.ok 0 ∧
    computeHits q rows = Except.ok (rows.map (okHit q)) ∧
    okHit q r ∈ rows.map (okHit q) ∧
    (okHit q r).similarity = 0 := by
  have hdot : dotQ q r.embedding = 0 := by
    rcases hzero with hz | hz
    · exact dotQ_zero_right q r.embedding (eq_zero_of_normSq_eq_zero _ hz)
    · exact dotQ_zero_left q r.embedding (eq_zero_of_normSq_eq_zero _ hz)
  have hsgn : signedSq (dotQ q r.embedding) = 0 := by
    rw [hdot]; simp [signedSq]
  refine ⟨?_, computeHits_ok q rows hdim, List.mem_map_of_mem _ hr, ?_⟩
  · rw [sklearnCosine, if_neg (by simp [hdim r hr]), hsgn]
    simp
  · simp [okHit, hsgn]

/-- Scan row with embedding `[0, 1]`, used as concrete witness input. -/
def rowB0 : ScanRow :=
  { content := ['y'], pageNumber := 1, embedding := [0, 1], filename := ['f'],
    documentId := ['d'], chunkIndex := 0 }

/-- Scan row with the zero embedding `[0, 0]`. -/
def rowZ : ScanRow :=
  { content := ['z'], pageNumber := 2, embedding := [0, 0], filename := ['f'],
    documentId := ['d'], chunkIndex := 1 }

/-- Witness for `c4_sklearn_zero_norm`: a two-row corpus whose second row
has the zero embedding, against a dimension-2 query. -/
theorem c4_sklearn_zero_norm_witness :
    (∀ x ∈ [rowB0, rowZ], x.embedding.length = ([1, 0] : List ℚ).length) ∧
    rowZ ∈ [rowB0, rowZ] ∧
    (normSq rowZ.embedding = 0 ∨ normSq ([1, 0] : List ℚ) = 0) ∧
    (sklearnCosine [1, 0] rowZ.embedding = Except.ok 0 ∧
     computeHits [1, 0] [rowB0, rowZ] = Except.ok ([rowB0, rowZ].map (okHit [1, 0])) ∧
     okHit [1, 0] rowZ ∈ [rowB0, rowZ].map (okHit [1, 0]) ∧
     (okHit [1, 0] rowZ).similarity = 0) :=
  ⟨by decide, by decide, Or.inl (by simp [rowZ, normSq, dotQ]),
   c4_sklearn_zero_norm [1, 0] [rowB0, rowZ] rowZ
     (by decide) (by decide) (Or.inl (by simp [rowZ, normSq, dotQ]))⟩

/-- C7: when every stored embedding has the query's dimensionality (the
corpus invariant), `search_similar_chunks` with a positive `topK = k`
returns exactly `min k N` results for a corpus of `N` chunks: never more
than `k`, and all `N` when `N < k`. -/
theorem c7_topk_bounded (q : List ℚ) (rows : List ScanRow) (k : Nat)
    (_hk : 0 < k) (hdim : ∀ r ∈ rows, r.embedding.length = q.length) :
    (search_similar_chunks q rows k).length = min k rows.length := by
  unfold search_similar_chunks
  by_cases hrows : rows.isEmpty
  · rw [if_pos hrows]
    rw [List.isEmpty_iff] at hrows
    simp [hrows]
  · rw [if_neg hrows, computeHits_ok q rows hdim]
    simp

/-- Witness for `c7_topk_bounded`: two rows, `topK = 5`. -/
theorem c7_topk_bounded_witness :
    0 < 5 ∧ (∀ r ∈ [rowB0, rowZ], r.embedding.length = ([1, 0] : List ℚ).length) ∧
    (search_similar_chunks [1, 0] [rowB0, rowZ] 5).length = min 5 ([rowB0, rowZ] : List ScanRow).length :=
  ⟨by decide, by decide,
   c7_topk_bounded [1, 0] [rowB0, rowZ] 5 (by decide) (by decide)⟩

theorem save_chunks_length (document_id filename : PyStr) (file_size : Int)
    (file_type : PyStr) (chunks : List PyStr) (page_numbers : List Int)
    (embeddings : List (List ℚ)) :
    (save_document_to_db document_id filename file_size file_type chunks
      page_numbers embeddings).chunks.length =
      min chunks.length (min page_numbers.length embeddings.length) := by
  simp [save_document_to_db, zip3]

theorem save_chunkIndexes (document_id filename : PyStr) (file_size : Int)
    (file_type : PyStr) (chunks : List PyStr) (page_numbers : List Int)
    (embeddings : List (List ℚ)) :
    (save_document_to_db document_id filename file_size file_type chunks
      page_numbers embeddings).chunks.map DBChunk.chunkIndex =
      List.range (save_document_to_db document_id filename file_size file_type
        chunks page_numbers embeddings).chunks.length := by
  simp only [save_document_to_db, List.map_map, List.length_map]
  have h : (DBChunk.chunkIndex ∘ fun p : Nat × PyStr × Int × List ℚ =>
      ({ documentId := document_id, chunkIndex := p.1, content := p.2.1,
         pageNumber := p.2.2.1, embedding := p.2.2.2,
         chunkSize := p.2.1.length } : DBChunk)) =
      Prod.fst := by
    funext p
    rfl
  rw [h, List.enum_map_fst, List.enum_length]

/-- C8: persisting a fresh document whose chunk, page-number and embedding
sequences all have length `N` stores chunk rows whose `chunkIndex` values
are exactly `0, 1, ..., N-1` in input order, with `totalChunks = N` equal to
the number of stored chunk rows. -/
theorem c8_index_contiguity (document_id filename : PyStr) (file_size : Int)
    (file_type : PyStr) (chunks : List PyStr) (page_numbers : List Int)
    (embeddings : List (List ℚ))
    (h1 : page_numbers.length = chunks.length)
    (h2 : embeddings.length = chunks.length) :
    (save_document_to_db document_id filename file_size file_type chunks
      page_numbers embeddings).chunks.map DBChunk.chunkIndex =
      List.range chunks.length ∧
    (save_document_to_db document_id filename file_size file_type chunks
      page_numbers embeddings).totalChunks = chunks.length ∧
    (save_document_to_db document_id filename file_size file_type chunks
      page_numbers embeddings).chunks.length = chunks.length := by
  have hlen : (save_document_to_db document_id filename file_size file_type
      chunks page_numbers embeddings).chunks.length = chunks.length := by
    rw [save_chunks_length, h1, h2]
    simp
  refine ⟨?_, by simp [save_document_to_db], hlen⟩
  rw [save_chunkIndexes, hlen]

/-- Witness for `c8_index_contiguity`: two chunks with matching page-number
and embedding lists. -/
theorem c8_index_contiguity_witness :
    ([(1 : Int), 2] : List Int).length = ([['a'], ['b']] : List PyStr).length ∧
    ([[(1 : ℚ)], [2]] : List (List ℚ)).length = ([['a'], ['b']] : List PyStr).length ∧
    ((save_document_to_db ['d'] ['f'] 10 ['t'] [['a'], ['b']] [1, 2]
        [[1], [2]]).chunks.map DBChunk.chunkIndex =
      List.range ([['a'], ['b']] : List PyStr).length ∧
    (save_document_to_db ['d'] ['f'] 10 ['t'] [['a'], ['b']] [1, 2]
        [[1], [2]]).totalChunks = ([['a'], ['b']] : List PyStr).length ∧
    (save_document_to_db ['d'] ['f'] 10 ['t'] [['a'], ['b']] [1, 2]
        [[1], [2]]).chunks.length = ([['a'], ['b']] : List PyStr).length) :=
  ⟨by decide, by decide,
   c8_index_contiguity ['d'] ['f'] 10 ['t'] [['a'], ['b']] [1, 2] [[1], [2]]
     (by decide) (by decide)⟩

/-- C10: `zip(chunks, page_numbers, embeddings)` truncates to the shortest
input, so exactly `min` of the three lengths chunk rows are inserted, while
`totalChunks` is set to `len(chunks)` alone; consequently the
`totalChunks = rowCount` invariant is guaranteed whenever the three inputs
have equal length (and fails e.g. when an embedding is missing). -/
theorem c10_zip_truncation (document_id filename : PyStr) (file_size : Int)
    (file_type : PyStr) (chunks : List PyStr) (page_numbers : List Int)
    (embeddings : List (List ℚ)) :
    (save_document_to_db document_id filename file_size file_type chunks
      page_numbers embeddings).chunks.length =
      min chunks.length (min page_numbers.length embeddings.length) ∧
    (save_document_to_db document_id filename file_size file_type chunks
      page_numbers embeddings).totalChunks = chunks.length ∧
    (page_numbers.length = chunks.length → embeddings.length = chunks.length →
      (save_document_to_db document_id filename file_size file_type chunks
        page_numbers embeddings).totalChunks =
      (save_document_to_db document_id filename file_size file_type chunks
        page_numbers embeddings).chunks.length) := by
  refine ⟨save_chunks_length .., by simp [save_document_to_db], ?_⟩
  intro h1 h2
  rw [save_chunks_length, h1, h2]
  simp [save_document_to_db]

/-- Witness for `c10_zip_truncation` at unequal lengths: three chunks, two
page numbers, one embedding — one row inserted, `totalChunks = 3`. -/
theorem c10_zip_truncation_witness :
    (save_document_to_db ['d'] ['f'] 10 ['t'] [['a'], ['b'], ['c']] [1, 2]
        [[1]]).chunks.length =
      min ([['a'], ['b'], ['c']] : List PyStr).length
        (min ([(1 : Int), 2] : List Int).length ([[(1 : ℚ)]] : List (List ℚ)).length) ∧
    (save_document_to_db ['d'] ['f'] 10 ['t'] [['a'], ['b'], ['c']] [1, 2]
        [[1]]).totalChunks = ([['a'], ['b'], ['c']] : List PyStr).length ∧
    (([(1 : Int), 2] : List Int).length = ([['a'], ['b'], ['c']] : List PyStr).length →
      ([[(1 : ℚ)]] : List (List ℚ)).length = ([['a'], ['b'], ['c']] : List PyStr).length →
      (save_document_to_db ['d'] ['f'] 10 ['t'] [['a'], ['b'], ['c']] [1, 2]
        [[1]]).totalChunks =
      (save_document_to_db ['d'] ['f'] 10 ['t'] [['a'], ['b'], ['c']] [1, 2]
        [[1]]).chunks.length) :=
  c10_zip_truncation ['d'] ['f'] 10 ['t'] [['a'], ['b'], ['c']] [1, 2] [[1]]

/-- C9: decoding is a left inverse of encoding — for any float32 vector
(each element a 32-bit pattern), serializing with `tobytes()` and decoding
with `np.frombuffer(-, dtype=np.float32)` recovers exactly the original
vector, with the same element count. -/
theorem c9_serialization_roundtrip (v : List Nat) (h : ∀ x ∈ v, x < 4294967296) :
    frombufferF32 (tobytesF32 v) = v ∧
    (frombufferF32 (tobytesF32 v)).length = v.length := by
  have main : frombufferF32 (tobytesF32 v) = v := by
    induction v with
    | nil => rfl
    | cons x xs ih =>
      have hx : x < 4294967296 := h x (by simp)
      have hxs : frombufferF32 (tobytesF32 xs) = xs :=
        ih (fun y hy => h y (by simp [hy]))
      show frombufferF32 (x % 256 :: x / 256 % 256 :: x / 65536 % 256 ::
        x / 16777216 % 256 :: tobytesF32 xs) = x :: xs
      simp only [frombufferF32]
      rw [hxs]
      congr 1
      omega
  exact ⟨main, by rw [main]⟩

/-- Witness for `c9_serialization_roundtrip` on a two-element vector. -/
theorem c9_serialization_roundtrip_witness :
    (∀ x ∈ [3, 4294967295], x < 4294967296) ∧
    (frombufferF32 (tobytesF32 [3, 4294967295]) = [3, 4294967295] ∧
     (frombufferF32 (tobytesF32 [3, 4294967295])).length = ([3, 4294967295] : List Nat).length) :=
  ⟨by decide, c9_serialization_roundtrip [3, 4294967295] (by decide)⟩

theorem hitLE_trans : ∀ (a b c : SearchHit), hitLE a b → hitLE b c → hitLE a c := by
  intro a b c hab hbc
  simp only [hitLE, decide_eq_true_eq] at *
  exact le_trans hbc hab

theorem hitLE_total : ∀ (a b : SearchHit), hitLE a b || hitLE b a := by
  intro a b
  simp only [hitLE, Bool.or_eq_true, decide_eq_true_eq]
  exact le_total _ _

theorem search_sorted (q : List ℚ) (rows : List ScanRow) (k : Nat) :
    (search_similar_chunks q rows k).Pairwise
      (fun a b => b.similarity ≤ a.similarity) := by
  unfold search_similar_chunks
  by_cases hrows : rows.isEmpty
  · simp [hrows]
  · rw [if_neg hrows]
    cases hch : computeHits q rows with
    | error e => exact List.Pairwise.nil
    | ok sims =>
      have hs : (sims.mergeSort hitLE).Pairwise (fun a b => hitLE a b) :=
        List.sorted_mergeSort hitLE_trans hitLE_total sims
      have ht := hs.sublist (List.take_sublist k (sims.mergeSort hitLE))
      exact ht.imp (fun hab => by simpa [hitLE] using hab)

theorem search_ties_stable (q : List ℚ) (rows : List ScanRow) (k : Nat) (v : ℚ) :
    List.Sublist
      ((search_similar_chunks q rows k).filter (fun h => h.similarity = v))
      ((orderedHits q rows).filter (fun h => h.similarity = v)) := by
  unfold search_similar_chunks orderedHits
  by_cases hrows : rows.isEmpty
  · rw [if_pos hrows]
    simp
  · rw [if_neg hrows]
    cases hch : computeHits q rows with
    | error e => simp
    | ok sims =>
      have hall : ∀ a ∈ sims.filter (fun h : SearchHit => h.similarity = v),
          a.similarity = v := by
        intro a ha
        simpa using List.of_mem_filter ha
      have hc : (sims.filter (fun h : SearchHit => h.similarity = v)).Pairwise
          (fun a b => hitLE a b) := by
        apply List.pairwise_of_forall_mem_list
        intro a ha b hb
        simp only [hitLE, decide_eq_true_eq]
        rw [hall a ha, hall b hb]
      have hstable : List.Sublist
          (sims.filter (fun h : SearchHit => h.similarity = v))
          (sims.mergeSort hitLE) :=
        List.sublist_mergeSort hitLE_trans hitLE_total hc (List.filter_sublist sims)
      have hfeq : (sims.mergeSort hitLE).filter (fun h : SearchHit => h.similarity = v) =
          sims.filter (fun h : SearchHit => h.similarity = v) := by
        have hidem : (sims.filter (fun h : SearchHit => h.similarity = v)).filter
            (fun h : SearchHit => h.similarity = v) =
            sims.filter (fun h : SearchHit => h.similarity = v) :=
          List.filter_eq_self.mpr
            (fun a ha => List.of_mem_filter
              (p := fun h : SearchHit => decide (h.similarity = v)) ha)
        have h1 := hstable.filter (fun h : SearchHit => decide (h.similarity = v))
        rw [hidem] at h1
        have h2 : ((sims.mergeSort hitLE).filter
              (fun h : SearchHit => h.similarity = v)).length =
            (sims.filter (fun h : SearchHit => h.similarity = v)).length :=
          ((List.mergeSort_perm sims hitLE).filter _).length_eq
        exact (h1.eq_of_length h2.symm).symm
      have h3 := (List.take_sublist k (sims.mergeSort hitLE)).filter
        (fun h : SearchHit => decide (h.similarity = v))
      rw [hfeq] at h3
      exact h3

/-- Arguments of one `save_document_to_db` call (one document ingestion). -/
structure SaveArgs where
  document_id : PyStr
  filename : PyStr
  file_size : Int
  file_type : PyStr
  chunks : List PyStr
  page_numbers : List Int
  embeddings : List (List ℚ)
deriving DecidableEq

/-- Persist one document from its save-call arguments. -/
def applySave (a : SaveArgs) : SavedDoc :=
  save_document_to_db a.document_id a.filename a.file_size a.file_type
    a.chunks a.page_numbers a.embeddings

/-- C6: for every corpus built from a sequence of save calls (documents in
upload order) and every query, the search result is sorted descending by
similarity; hits of equal similarity appear as a sublist of the scan-order
hit list (Python's sort is stable), and the scan order is the insertion
(rowid) order — documents in upload order and, within one document, chunk
rows in ascending `chunkIndex` order (whose stored values are `0..N-1` by
construction); and the result of an identical repeated query is identical
(the model is a pure function of the stored corpus). -/
theorem c6_ranking_order (q : List ℚ) (calls : List SaveArgs) (k : Nat) :
    (search_similar_chunks q (scanAllChunks (calls.map applySave)) k).Pairwise
      (fun a b => b.similarity ≤ a.similarity) ∧
    (∀ v : ℚ,
      List.Sublist
        ((search_similar_chunks q (scanAllChunks (calls.map applySave)) k).filter
          (fun h => h.similarity = v))
        ((orderedHits q (scanAllChunks (calls.map applySave))).filter
          (fun h => h.similarity = v))) ∧
    (∀ d ∈ calls.map applySave,
      d.chunks.map DBChunk.chunkIndex = List.range d.chunks.length) ∧
    search_similar_chunks q (scanAllChunks (calls.map applySave)) k =
      search_similar_chunks q (scanAllChunks (calls.map applySave)) k := by
  refine ⟨search_sorted q _ k, fun v => search_ties_stable q _ k v, ?_, rfl⟩
  intro d hd
  obtain ⟨a, ha, rfl⟩ := List.mem_map.mp hd
  exact save_chunkIndexes a.document_id a.filename a.file_size a.file_type
    a.chunks a.page_numbers a.embeddings
